import Mathlib

/-!
# FarmStallPos — verification of the natural-language specification

Shallow embedding of the FarmStallPos point-of-sale application.

The repository ships the browser client (`static/main.js`, in two
revisions) together with a service worker and a database sync script; the
Flask backend (`app.py`, holding the checkout engine, stock accounting,
weighted-average-cost computation and barcode generation) is not part of
the source tree.  Client-side behaviour (product resolution, the cart) is
embedded directly from `static/main.js`; server-side behaviour is modelled
from the specification, with each such definition marked
`Modelled from the spec:` in its doc comment.

Monetary values are embedded as rationals (`Rat`); quantities and stock
levels as integers (`Int`), so that the non-negativity of stock is a real
property rather than a typing artefact.
-/

namespace FarmStall

/-! ## Client-side catalog and product resolution (`static/main.js`) -/

/-- Entry value of the legacy `PRODUCTS` object (`name -> {id, price, barcode}`),
as served by `/api/products` in the first revision of `main.js`. -/
structure PInfo where
  id : Int
  price : Rat
  barcode : Option String
deriving DecidableEq, Repr

/-- The legacy `PRODUCTS` object: a name-keyed association list. -/
abbrev LegacyCatalog := List (String × PInfo)

/-- Product record of the second revision (`STATE.products`, from
`/api/products`): `{id, name, price, barcode, stock_qty}`. -/
structure SProduct where
  id : Int
  name : String
  price : Rat
  barcode : String
  stock_qty : Int
deriving DecidableEq, Repr

/-- Value of the leading run of decimal digits of a character list, `none`
when the list does not start with a digit (JS `parseInt` yields `NaN` there). -/
def leadingDigits (cs : List Char) : Option Nat :=
  let ds := cs.takeWhile (fun c => c.isDigit)
  if ds.isEmpty then none
  else some (ds.foldl (fun acc c => acc * 10 + (c.toNat - 48)) 0)

/-- JS `parseInt(s, 10)`: skip leading spaces, optional sign, then the
longest run of digits; `none` models `NaN`. -/
def parseIntJS (s : String) : Option Int :=
  match s.toList.dropWhile (fun c => c = ' ') with
  | '-' :: rest => (leadingDigits rest).map (fun n => -(n : Int))
  | '+' :: rest => (leadingDigits rest).map (fun n => (n : Int))
  | cs => (leadingDigits cs).map (fun n => (n : Int))

/-- JS object key lookup `PRODUCTS[productName]` (exact, case-sensitive). -/
def lookupJsKey (ps : LegacyCatalog) (k : String) : Option PInfo :=
  (ps.find? (fun e => e.1 == k)).map (fun e => e.2)

/-- Product resolution of the legacy `addToCart` (`main.js` lines 63–88 and
`part_000` lines 233–246): exact case-sensitive name lookup in `PRODUCTS`,
then — if `parseInt` succeeds — first entry with that numeric id, then first
entry whose barcode equals the raw input. -/
def resolveLegacy (ps : LegacyCatalog) (input : String) : Option (String × PInfo) :=
  match lookupJsKey ps input with
  | some info => some (input, info)
  | none =>
    let byId : Option (String × PInfo) :=
      match parseIntJS input with
      | some asId => ps.find? (fun e => e.2.id == asId)
      | none => none
    match byId with
    | some e => some e
    | none => ps.find? (fun e => e.2.barcode == some input)

/-- Scanner resolution of the second revision (`main.js` lines 707–711):
`STATE.products.find(barcode === code) || find(String(id) === code) ||
find(name.toLowerCase() === code.toLowerCase())`. -/
def resolveScanner (ps : List SProduct) (code : String) : Option SProduct :=
  (ps.find? (fun x => x.barcode == code)) <|>
  ((ps.find? (fun x => toString x.id == code)) <|>
    ps.find? (fun x => x.name.toLower == code.toLower))

/-- Lookup in the order the specification §4.1 prescribes, over the scanner
catalog shape: exact barcode match, then exact numeric-id match, then
case-insensitive exact name match; first match wins. -/
def specOrderScanner (ps : List SProduct) (code : String) : Option SProduct :=
  match ps.find? (fun x => x.barcode == code) with
  | some p => some p
  | none =>
    match ps.find? (fun x => toString x.id == code) with
    | some p => some p
    | none => ps.find? (fun x => x.name.toLower == code.toLower)

/-- Lookup in the order the specification §4.1 prescribes, over the legacy
name-keyed catalog: exact barcode match first, then exact numeric-id match,
then case-insensitive exact name match. -/
def specOrderLegacy (ps : LegacyCatalog) (input : String) : Option (String × PInfo) :=
  match ps.find? (fun e => e.2.barcode == some input) with
  | some e => some e
  | none =>
    match (match parseIntJS input with
           | some asId => ps.find? (fun e => e.2.id == asId)
           | none => none) with
    | some e => some e
    | none => ps.find? (fun e => e.1.toLower == input.toLower)

/-! ## Client-side cart (`static/main.js` / `part_000`) -/

/-- Entry of the legacy `CART` array: `{name, qty, price}`. -/
structure CartItem where
  name : String
  qty : Int
  price : Rat
deriving DecidableEq, Repr

/-- JS `CART.find(x => x.name === productName)` followed by
`existing.qty += qty`: increment the quantity of the first entry bearing the
given name. -/
def bumpFirst : List CartItem → String → Int → List CartItem
  | [], _, _ => []
  | x :: xs, n, q =>
    if x.name = n then { x with qty := x.qty + q } :: xs
    else x :: bumpFirst xs n q

/-- The legacy `addToCart(inputValue, qty)` (`main.js` lines 63–95): early
return on empty input, resolve the input against `PRODUCTS`, alert-and-return
when unresolved, otherwise increment the existing entry or push a new
`{name, qty, price}` entry.  The `qty` argument is the integer the source
obtains from `parseInt(qty || '1', 10)`. -/
def addToCart (ps : LegacyCatalog) (cart : List CartItem)
    (inputValue : String) (qty : Int) : List CartItem :=
  if inputValue = "" then cart
  else
    match resolveLegacy ps inputValue with
    | none => cart
    | some (pname, info) =>
      if cart.any (fun x => x.name = pname) then bumpFirst cart pname qty
      else cart ++ [⟨pname, qty, info.price⟩]

/-- The names of the entries currently in the cart. -/
def cartNames (cart : List CartItem) : List String := cart.map (fun x => x.name)

/-! ## Server-side model

The backend `app.py` is not part of the source tree; the definitions below
are modelled from the specification (§3, §4.1, §4.2). -/

/-- Modelled from the spec: §3 Product — server-side product record with
`stock_qty` (integer, so non-negativity is provable, not assumed) and the
weighted-average-cost state kept by `record_purchase` (`wac` and the
cumulative purchase-quantity basis `wac_basis`, independent of sales). -/
structure Product where
  id : Nat
  name : String
  price : Rat
  barcode : Option String
  stock_qty : Int
  wac : Rat
  wac_basis : Int
deriving DecidableEq, Repr

/-- Modelled from the spec: §3 TransactionLine — `product_id`, `qty`,
`unit_price` captured at time of sale. -/
structure TransactionLine where
  product_id : Nat
  qty : Int
  unit_price : Rat
deriving DecidableEq, Repr

/-- Modelled from the spec: §3 Transaction — id, owned lines and the
recorded total. -/
structure Transaction where
  id : Nat
  lines : List TransactionLine
  total : Rat
deriving DecidableEq, Repr

/-- Modelled from the spec: the server's persistent state relevant to the
checkout engine — the Catalog Store, the append-only Ledger, and the next
transaction id. -/
structure ServerState where
  catalog : List Product
  ledger : List Transaction
  nextTranId : Nat
deriving DecidableEq, Repr

/-- A proposed cart line: `{product_id, qty}` (spec §6 checkout request). -/
structure CartLine where
  product_id : Nat
  qty : Int
deriving DecidableEq, Repr

/-- Modelled from the spec: §7 error taxonomy (checkout-relevant part). -/
inductive CheckoutError where
  | EmptyCart
  | InvalidQuantity
  | ProductNotFound
  | InsufficientStock
deriving DecidableEq, Repr

/-- Outcome of a checkout request: `{transaction_id, total}` or an error
(spec §4.2). -/
inductive CheckoutResult where
  | ok (transaction_id : Nat) (total : Rat)
  | error (e : CheckoutError)
deriving DecidableEq, Repr

/-- First product in the catalog with the given id (catalog lookup by id). -/
def findProduct (catalog : List Product) (pid : Nat) : Option Product :=
  catalog.find? (fun p => p.id == pid)

/-- Modelled from the spec: §4.1 `decrement_stock(product_id, qty)` — fails
(with no partial effect) when the product is missing or `stock_qty < qty`;
otherwise decrements the first product with that id. -/
def decrementStock : List Product → Nat → Int → Option (List Product)
  | [], _, _ => none
  | p :: ps, pid, qty =>
    if p.id = pid then
      if p.stock_qty < qty then none
      else some ({ p with stock_qty := p.stock_qty - qty } :: ps)
    else (decrementStock ps pid qty).map (fun ps' => p :: ps')

/-- Modelled from the spec: §4.2 step 3 — decrement stock for each cart line
in order; `none` as soon as any decrement fails. -/
def applyDecrements : List Product → List CartLine → Option (List Product)
  | catalog, [] => some catalog
  | catalog, l :: ls =>
    match decrementStock catalog l.product_id l.qty with
    | none => none
    | some catalog' => applyDecrements catalog' ls

/-- Modelled from the spec: §4.2 step 2 — resolve every cart line and
snapshot the resolved product's current price at validation time, producing
the transaction lines; `none` when some line's product does not resolve. -/
def snapshotCart (catalog : List Product) : List CartLine → Option (List TransactionLine)
  | [] => some []
  | l :: ls =>
    match findProduct catalog l.product_id with
    | none => none
    | some p =>
      (snapshotCart catalog ls).map
        (fun rest => ⟨l.product_id, l.qty, p.price⟩ :: rest)

/-- Modelled from the spec: §4.2 `checkout(cart)` — reject `EmptyCart`,
reject `InvalidQuantity` on any `qty <= 0`, resolve and snapshot each line,
decrement all stocks all-or-nothing, then append one Transaction whose lines
carry the snapshot prices and whose total is `sum(qty * unit_price)`.
Every rejection returns the state unchanged (full rollback). -/
def checkout (st : ServerState) (cart : List CartLine) : ServerState × CheckoutResult :=
  if cart.isEmpty then (st, .error .EmptyCart)
  else if cart.any (fun l => l.qty ≤ 0) then (st, .error .InvalidQuantity)
  else
    match snapshotCart st.catalog cart with
    | none => (st, .error .ProductNotFound)
    | some lines =>
      match applyDecrements st.catalog cart with
      | none => (st, .error .InsufficientStock)
      | some catalog' =>
        let total := (lines.map (fun l => (l.qty : Rat) * l.unit_price)).sum
        let t : Transaction := ⟨st.nextTranId, lines, total⟩
        (⟨catalog', st.ledger ++ [t], st.nextTranId + 1⟩, .ok st.nextTranId total)

/-- Modelled from the spec: §4.1 `record_purchase` per-product effect —
`stock_qty += qty_added`, WAC recomputed as the running weighted average
over the purchase-quantity basis, which then grows by `qty_added`. -/
def purchaseUpdate (p : Product) (qty_added : Int) (purchase_price : Rat) : Product :=
  { p with
    stock_qty := p.stock_qty + qty_added,
    wac := (p.wac * (p.wac_basis : Rat) + purchase_price * (qty_added : Rat)) /
             ((p.wac_basis : Rat) + (qty_added : Rat)),
    wac_basis := p.wac_basis + qty_added }

/-- Rewrite the first product with the given id through `f`; `none` when no
product has that id. -/
def updateFirst : List Product → Nat → (Product → Product) → Option (List Product)
  | [], _, _ => none
  | p :: ps, pid, f =>
    if p.id = pid then some (f p :: ps)
    else (updateFirst ps pid f).map (fun ps' => p :: ps')

/-- Modelled from the spec: §4.1 `record_purchase(product_id, qty_added,
purchase_price)` — fails with `InvalidQuantity` when `qty_added <= 0`, with
`NotFound` when the product is missing; otherwise atomically applies
`purchaseUpdate` to the first product with that id. -/
def recordPurchase (catalog : List Product) (pid : Nat) (qty_added : Int)
    (purchase_price : Rat) : Option (List Product) :=
  if qty_added ≤ 0 then none
  else updateFirst catalog pid (fun p => purchaseUpdate p qty_added purchase_price)

/-- Modelled from the spec: §4.1 `suggested_price` —
`wac * (1 + markup_percent/100)`. -/
def suggestedPrice (p : Product) (markup_percent : Rat) : Rat :=
  p.wac * (1 + markup_percent / 100)

/-- Modelled from the spec: §4.1 `update_product` restricted to a price
change by an admin — rewrites the price of the products with that id and
touches nothing else (in particular not the ledger). -/
def updatePrice (st : ServerState) (pid : Nat) (newPrice : Rat) : ServerState :=
  { st with
    catalog := st.catalog.map (fun p => if p.id = pid then { p with price := newPrice } else p) }

/-- A committed operation on the store: a checkout or a purchase. -/
inductive Op where
  | checkoutOp (cart : List CartLine)
  | purchaseOp (pid : Nat) (qty_added : Int) (purchase_price : Rat)

/-- Effect of one operation on the server state; a rejected operation leaves
the state unchanged. -/
def applyOp (st : ServerState) : Op → ServerState
  | .checkoutOp cart => (checkout st cart).1
  | .purchaseOp pid q price =>
    match recordPurchase st.catalog pid q price with
    | none => st
    | some catalog' => { st with catalog := catalog' }

/-- Effect of a sequence of committed operations. -/
def applyOps (st : ServerState) (ops : List Op) : ServerState :=
  ops.foldl applyOp st

/-- Every product in the state has non-negative stock (spec §3 invariant). -/
def stockNonNeg (st : ServerState) : Prop :=
  ∀ p ∈ st.catalog, 0 ≤ p.stock_qty

instance (st : ServerState) : Decidable (stockNonNeg st) := by
  unfold stockNonNeg; infer_instance

/-- A transaction's recorded total equals the sum of `qty * unit_price`
over its lines (spec §3 invariant). -/
def tranConsistent (t : Transaction) : Prop :=
  t.total = (t.lines.map (fun l => (l.qty : Rat) * l.unit_price)).sum

instance (t : Transaction) : Decidable (tranConsistent t) := by
  unfold tranConsistent; infer_instance

/-- All committed transactions of the ledger are internally consistent. -/
def ledgerConsistent (st : ServerState) : Prop :=
  ∀ t ∈ st.ledger, tranConsistent t

instance (st : ServerState) : Decidable (ledgerConsistent st) := by
  unfold ledgerConsistent; infer_instance

/-! ## Barcode generation (spec §4.1) -/

/-- EAN-13 weight for the 0-indexed digit position `i`: 1 when even, 3 when
odd. -/
def ean13Weight (i : Nat) : Nat := if i % 2 = 0 then 1 else 3

/-- Weighted digit sum starting at position `i`. -/
def weightedSumFrom : Nat → List Nat → Nat
  | _, [] => 0
  | i, d :: ds => ean13Weight i * d + weightedSumFrom (i + 1) ds

/-- Modelled from the spec: §4.1 check digit of a 12-digit base —
`(10 - (sum(d_i * (1 if i even else 3)) mod 10)) mod 10`. -/
def ean13Checksum (base : List Nat) : Nat :=
  (10 - (weightedSumFrom 0 base) % 10) % 10

/-- Modelled from the spec: §4.1 barcode generation — the 13-digit code is
the 12-digit base followed by its check digit. -/
def genBarcode (base : List Nat) : List Nat :=
  base ++ [ean13Checksum base]

/-! ## Concrete fixtures used to instantiate the theorems -/

/-- A small legacy catalog in which the string `"Milk"` is both the name of
one product and the barcode of another. -/
def demoProducts : LegacyCatalog :=
  [("Milk", ⟨1, 18, some "B1"⟩), ("Candy", ⟨2, 5, some "Milk"⟩)]

/-- A small scanner-era catalog. -/
def demoScanProducts : List SProduct :=
  [⟨1, "Milk", 18, "B1", 5⟩, ⟨2, "Candy", 5, "B2", 3⟩]

/-- A cart holding one Candy entry. -/
def demoCart : List CartItem := [⟨"Candy", 1, 5⟩]

/-- Server state of the §8 Milk scenario: Milk has `stock_qty = 5`. -/
def milkState : ServerState :=
  { catalog := [⟨1, "Milk", 18, some "B1", 5, 0, 0⟩], ledger := [], nextTranId := 1 }

/-- The §8 Milk cart asking for 100 units. -/
def milkCart : List CartLine := [⟨1, 100⟩]

/-- Server state with one Apples product, stock 5. -/
def appleState : ServerState :=
  { catalog := [⟨3, "Apples", 18, some "2004428073279", 5, 0, 0⟩], ledger := [], nextTranId := 1 }

/-- Cart buying 3 Apples. -/
def appleCart : List CartLine := [⟨3, 3⟩]

/-- A product with no purchase history (`wac = 0`, basis 0). -/
def freshEggs : Product := ⟨7, "Eggs", 3, none, 0, 0, 0⟩

/-- Catalog holding only `freshEggs`. -/
def wacDemoCatalog : List Product := [freshEggs]

/-- The product state after the §8 WAC scenario purchases `(qty=10, price=5)`
then `(qty=10, price=7)`. -/
def wacFinal : Product := purchaseUpdate (purchaseUpdate freshEggs 10 5) 10 7

/-! ## Helper lemmas -/

theorem weightedSumFrom_append (i : Nat) (xs : List Nat) (c : Nat) :
    weightedSumFrom i (xs ++ [c])
      = weightedSumFrom i xs + ean13Weight (i + xs.length) * c := by
  induction xs generalizing i with
  | nil => simp [weightedSumFrom]
  | cons d ds ih =>
    show ean13Weight i * d + weightedSumFrom (i + 1) (ds ++ [c])
        = ean13Weight i * d + weightedSumFrom (i + 1) ds
            + ean13Weight (i + (d :: ds).length) * c
    rw [ih, List.length_cons]
    have h2 : i + 1 + ds.length = i + (ds.length + 1) := by omega
    rw [h2, Nat.add_assoc]

/-! ## C6 — barcode check digit -/

/-- C6: for every auto-generated barcode with a 12-digit base `d0..d11`, the
generated code is 13 digits long, its 13th digit equals
`(10 - (sum(d_i * (1 if i even else 3) for i in 0..11) mod 10)) mod 10`, and
the full 13-digit code satisfies the EAN-13 divisibility check. -/
theorem barcode_check_digit (base : List Nat) (h : base.length = 12) :
    (genBarcode base).length = 13 ∧
    (genBarcode base).getLast? = some ((10 - (weightedSumFrom 0 base) % 10) % 10) ∧
    (weightedSumFrom 0 (genBarcode base)) % 10 = 0 := by
  refine ⟨by simp [genBarcode, h], by simp [genBarcode, ean13Checksum], ?_⟩
  rw [genBarcode, weightedSumFrom_append, h]
  show (weightedSumFrom 0 base + ean13Weight 12 * ean13Checksum base) % 10 = 0
  rw [ean13Checksum, ean13Weight]
  norm_num
  omega

/-- C6 witness: the §8 base digits `200010000012` have check digit 0 and the
generated code passes the EAN-13 check. -/
theorem barcode_check_digit_witness :
    ([2,0,0,0,1,0,0,0,0,0,1,2] : List Nat).length = 12 ∧
    (genBarcode [2,0,0,0,1,0,0,0,0,0,1,2]).length = 13 ∧
    (genBarcode [2,0,0,0,1,0,0,0,0,0,1,2]).getLast?
      = some ((10 - (weightedSumFrom 0 [2,0,0,0,1,0,0,0,0,0,1,2]) % 10) % 10) ∧
    (weightedSumFrom 0 (genBarcode [2,0,0,0,1,0,0,0,0,0,1,2])) % 10 = 0 :=
  ⟨by decide, barcode_check_digit [2,0,0,0,1,0,0,0,0,0,1,2] (by decide)⟩

/-! ## C8 — empty cart rejected before any mutation -/

/-- C8: a checkout request whose cart has zero lines is rejected with
`EmptyCart` and the server state — catalog and ledger — is returned
unchanged: no stock is modified and no Transaction is created. -/
theorem empty_cart_rejected (st : ServerState) :
    checkout st [] = (st, .error .EmptyCart) := by
  simp [checkout]

/-! ## C2 — all-or-nothing checkout -/

/-- C2: whenever the per-line stock decrements of a cart cannot all succeed,
the whole checkout aborts: the state (catalog stock and ledger) is returned
unchanged and no transaction is produced; and when the cart passed the
earlier validation steps the reported error is `InsufficientStock`. -/
theorem checkout_all_or_nothing (st : ServerState) (cart : List CartLine)
    (h : applyDecrements st.catalog cart = none) :
    (checkout st cart).1 = st ∧
    (∀ tid total, (checkout st cart).2 ≠ .ok tid total) ∧
    (cart.isEmpty = false → cart.any (fun l => l.qty ≤ 0) = false →
      ∀ lines, snapshotCart st.catalog cart = some lines →
        checkout st cart = (st, .error .InsufficientStock)) := by
  refine ⟨?_, ?_, ?_⟩
  · unfold checkout
    split
    · rfl
    split
    · rfl
    split
    · rfl
    rw [h]
  · intro tid total
    unfold checkout
    split
    · simp
    split
    · simp
    split
    · simp
    rw [h]
    simp
  · intro h1 h2 lines h3
    unfold checkout
    rw [h1, h2, h3, h]
    simp

/-- C2 witness: the §8 Milk scenario — cart `[{product: Milk, qty: 100}]`
with `stock_qty = 5` fails its decrement, and the checkout is rejected with
`InsufficientStock` leaving the state untouched. -/
theorem checkout_all_or_nothing_witness :
    applyDecrements milkState.catalog milkCart = none ∧
    (checkout milkState milkCart).1 = milkState ∧
    checkout milkState milkCart = (milkState, .error .InsufficientStock) :=
  ⟨by decide,
   (checkout_all_or_nothing milkState milkCart (by decide)).1,
   (checkout_all_or_nothing milkState milkCart (by decide)).2.2 (by decide) (by decide)
     [⟨1, 100, 18⟩] (by decide)⟩

/-! ## C1 — stock never negative -/

theorem decrementStock_nonneg {cat cat' : List Product} {pid : Nat} {qty : Int}
    (h : ∀ p ∈ cat, 0 ≤ p.stock_qty)
    (hd : decrementStock cat pid qty = some cat') :
    ∀ p ∈ cat', 0 ≤ p.stock_qty := by
  induction cat generalizing cat' with
  | nil => simp [decrementStock] at hd
  | cons p ps ih =>
    rw [decrementStock] at hd
    by_cases hid : p.id = pid
    · rw [if_pos hid] at hd
      by_cases hlt : p.stock_qty < qty
      · rw [if_pos hlt] at hd
        exact absurd hd (by simp)
      · rw [if_neg hlt] at hd
        obtain rfl := Option.some.inj hd
        intro q hq
        rcases List.mem_cons.mp hq with h1 | h1
        · subst h1
          simp only []
          omega
        · exact h q (List.mem_cons_of_mem p h1)
    · rw [if_neg hid] at hd
      obtain ⟨ps', hps', rfl⟩ := Option.map_eq_some'.mp hd
      intro q hq
      rcases List.mem_cons.mp hq with h1 | h1
      · subst h1
        exact h q (List.mem_cons_self q ps)
      · exact ih (fun r hr => h r (List.mem_cons_of_mem p hr)) hps' q h1

theorem applyDecrements_nonneg {cat cat' : List Product} {cart : List CartLine}
    (h : ∀ p ∈ cat, 0 ≤ p.stock_qty)
    (hd : applyDecrements cat cart = some cat') :
    ∀ p ∈ cat', 0 ≤ p.stock_qty := by
  induction cart generalizing cat with
  | nil =>
    rw [applyDecrements] at hd
    obtain rfl := Option.some.inj hd
    exact h
  | cons l ls ih =>
    rw [applyDecrements] at hd
    rcases h1 : decrementStock cat l.product_id l.qty with _ | cat1
    · rw [h1] at hd
      exact absurd hd (by simp)
    · rw [h1] at hd
      exact ih (decrementStock_nonneg h h1) hd

theorem updateFirst_nonneg {cat cat' : List Product} {pid : Nat} {f : Product → Product}
    (hf : ∀ p, 0 ≤ p.stock_qty → 0 ≤ (f p).stock_qty)
    (h : ∀ p ∈ cat, 0 ≤ p.stock_qty)
    (hu : updateFirst cat pid f = some cat') :
    ∀ p ∈ cat', 0 ≤ p.stock_qty := by
  induction cat generalizing cat' with
  | nil => simp [updateFirst] at hu
  | cons p ps ih =>
    rw [updateFirst] at hu
    by_cases hid : p.id = pid
    · rw [if_pos hid] at hu
      obtain rfl := Option.some.inj hu
      intro r hrm
      rcases List.mem_cons.mp hrm with h1 | h1
      · subst h1
        exact hf p (h p (List.mem_cons_self p ps))
      · exact h r (List.mem_cons_of_mem p h1)
    · rw [if_neg hid] at hu
      obtain ⟨ps', hps', rfl⟩ := Option.map_eq_some'.mp hu
      intro r hrm
      rcases List.mem_cons.mp hrm with h1 | h1
      · subst h1
        exact h r (List.mem_cons_self r ps)
      · exact ih (fun s hs => h s (List.mem_cons_of_mem p hs)) hps' r h1

theorem recordPurchase_nonneg {cat cat' : List Product} {pid : Nat} {q : Int} {price : Rat}
    (h : ∀ p ∈ cat, 0 ≤ p.stock_qty)
    (hr : recordPurchase cat pid q price = some cat') :
    ∀ p ∈ cat', 0 ≤ p.stock_qty := by
  rw [recordPurchase] at hr
  rcases Decidable.em (q ≤ 0) with hq | hq
  · simp [hq] at hr
  · rw [if_neg hq] at hr
    refine updateFirst_nonneg ?_ h hr
    intro p hp
    simp only [purchaseUpdate]
    omega

theorem applyOp_stockNonNeg {st : ServerState} (op : Op) (h : stockNonNeg st) :
    stockNonNeg (applyOp st op) := by
  cases op with
  | checkoutOp cart =>
    show ∀ p ∈ (checkout st cart).1.catalog, 0 ≤ p.stock_qty
    unfold checkout
    split
    · exact h
    split
    · exact h
    split
    · exact h
    rcases hd : applyDecrements st.catalog cart with _ | cat'
    · exact h
    · exact applyDecrements_nonneg h hd
  | purchaseOp pid q price =>
    rcases hr : recordPurchase st.catalog pid q price with _ | cat'
    · have he : applyOp st (.purchaseOp pid q price) = st := by
        simp [applyOp, hr]
      rw [he]
      exact h
    · have he : applyOp st (.purchaseOp pid q price) = { st with catalog := cat' } := by
        simp [applyOp, hr]
      rw [he]
      exact recordPurchase_nonneg h hr

theorem applyOps_stockNonNeg {st : ServerState} (ops : List Op) (h : stockNonNeg st) :
    stockNonNeg (applyOps st ops) := by
  induction ops generalizing st with
  | nil => exact h
  | cons op ops ih => exact ih (applyOp_stockNonNeg op h)

/-- C1: starting from any state whose products all have non-negative stock,
after every prefix of a sequence of committed checkouts and purchases —
i.e. after each committed operation — every product's `stock_qty` is still
non-negative; no committed checkout decrements stock below zero. -/
theorem stock_never_negative (st : ServerState) (ops : List Op) (k : Nat)
    (h : stockNonNeg st) :
    stockNonNeg (applyOps st (ops.take k)) :=
  applyOps_stockNonNeg (ops.take k) h

/-- C1 witness: from the Apples state (stock 5), a successful checkout of 3,
a rejected checkout of 100, and a purchase keep all stocks non-negative. -/
theorem stock_never_negative_witness :
    stockNonNeg appleState ∧
    stockNonNeg (applyOps appleState
      ([.checkoutOp [⟨3, 3⟩], .checkoutOp [⟨3, 100⟩], .purchaseOp 3 10 4].take 3)) :=
  ⟨by decide, stock_never_negative appleState
    [.checkoutOp [⟨3, 3⟩], .checkoutOp [⟨3, 100⟩], .purchaseOp 3 10 4] 3 (by decide)⟩

/-! ## C3 — transaction totals consistent with their lines -/

theorem checkout_ledger_shape (st : ServerState) (cart : List CartLine) :
    (checkout st cart).1.ledger = st.ledger ∨
    ∃ lines : List TransactionLine,
      (checkout st cart).1.ledger
        = st.ledger ++ [⟨st.nextTranId, lines,
            (lines.map (fun l => (l.qty : Rat) * l.unit_price)).sum⟩] := by
  unfold checkout
  split
  · exact Or.inl rfl
  split
  · exact Or.inl rfl
  split
  · exact Or.inl rfl
  rename_i lines _
  split
  · exact Or.inl rfl
  · exact Or.inr ⟨lines, rfl⟩

theorem applyOp_ledgerConsistent {st : ServerState} (op : Op) (h : ledgerConsistent st) :
    ledgerConsistent (applyOp st op) := by
  cases op with
  | checkoutOp cart =>
    show ∀ t ∈ (checkout st cart).1.ledger, tranConsistent t
    rcases checkout_ledger_shape st cart with hs | ⟨lines, hs⟩
    · rw [hs]
      exact h
    · rw [hs]
      intro t ht
      rcases List.mem_append.mp ht with h1 | h1
      · exact h t h1
      · rcases List.mem_singleton.mp h1 with rfl
        rfl
  | purchaseOp pid q price =>
    rcases hr : recordPurchase st.catalog pid q price with _ | cat'
    · have he : applyOp st (.purchaseOp pid q price) = st := by
        simp [applyOp, hr]
      rw [he]
      exact h
    · have he : applyOp st (.purchaseOp pid q price) = { st with catalog := cat' } := by
        simp [applyOp, hr]
      rw [he]
      exact h

theorem applyOps_ledgerConsistent {st : ServerState} (ops : List Op)
    (h : ledgerConsistent st) : ledgerConsistent (applyOps st ops) := by
  induction ops generalizing st with
  | nil => exact h
  | cons op ops ih => exact ih (applyOp_ledgerConsistent op h)

/-- C3: starting from any state whose ledger is consistent, after every
prefix of a sequence of committed operations every committed Transaction's
recorded total equals the sum over its TransactionLines of
`qty * unit_price`. -/
theorem total_consistency (st : ServerState) (ops : List Op) (k : Nat)
    (h : ledgerConsistent st) :
    ledgerConsistent (applyOps st (ops.take k)) :=
  applyOps_ledgerConsistent (ops.take k) h

/-- C3 witness: from the Apples state with an empty ledger, a committed
checkout and a purchase leave every transaction total consistent with its
lines. -/
theorem total_consistency_witness :
    ledgerConsistent appleState ∧
    ledgerConsistent (applyOps appleState
      ([.checkoutOp [⟨3, 3⟩], .purchaseOp 3 10 4].take 2)) :=
  ⟨by decide, total_consistency appleState
    [.checkoutOp [⟨3, 3⟩], .purchaseOp 3 10 4] 2 (by decide)⟩

/-! ## C4 — unit prices are snapshots taken at validation time -/

theorem snapshotCart_lines {cat : List Product} {cart : List CartLine}
    {lines : List TransactionLine}
    (hs : snapshotCart cat cart = some lines) :
    ∀ l ∈ lines, ∃ p, findProduct cat l.product_id = some p ∧ l.unit_price = p.price := by
  induction cart generalizing lines with
  | nil =>
    rw [snapshotCart] at hs
    obtain rfl := Option.some.inj hs
    intro l hl
    exact absurd hl (List.not_mem_nil l)
  | cons c cs ih =>
    rw [snapshotCart] at hs
    rcases hp : findProduct cat c.product_id with _ | p
    · rw [hp] at hs
      exact absurd hs (by simp)
    · rw [hp] at hs
      obtain ⟨rest, hrest, rfl⟩ := Option.map_eq_some'.mp hs
      intro l hl
      rcases List.mem_cons.mp hl with h1 | h1
      · subst h1
        exact ⟨p, hp, rfl⟩
      · exact ih hrest l h1

/-- C4: when a checkout request passes validation and commits, the committed
transaction's lines carry exactly the prices the catalog held at validation
time (the snapshots in `lines`), the ledger gains exactly that transaction,
and an admin price change applied immediately afterwards leaves the
committed ledger — hence every committed `unit_price` — unchanged. -/
theorem price_snapshot (st : ServerState) (cart : List CartLine)
    (lines : List TransactionLine) (catalog' : List Product)
    (hne : cart.isEmpty = false)
    (hq : cart.any (fun l => l.qty ≤ 0) = false)
    (hs : snapshotCart st.catalog cart = some lines)
    (hd : applyDecrements st.catalog cart = some catalog') :
    ∃ t : Transaction,
      checkout st cart
        = (⟨catalog', st.ledger ++ [t], st.nextTranId + 1⟩,
           .ok st.nextTranId t.total) ∧
      t.lines = lines ∧
      (∀ l ∈ t.lines, ∃ p, findProduct st.catalog l.product_id = some p ∧
         l.unit_price = p.price) ∧
      (∀ pid newPrice,
        (updatePrice (checkout st cart).1 pid newPrice).ledger = st.ledger ++ [t]) := by
  refine ⟨⟨st.nextTranId, lines,
    (lines.map (fun l => (l.qty : Rat) * l.unit_price)).sum⟩, ?_, rfl, ?_, ?_⟩
  · unfold checkout
    rw [hne, hq, hs, hd]
    rfl
  · exact snapshotCart_lines hs
  · intro pid newPrice
    have he : checkout st cart
        = (⟨catalog', st.ledger ++ [⟨st.nextTranId, lines,
             (lines.map (fun l => (l.qty : Rat) * l.unit_price)).sum⟩],
           st.nextTranId + 1⟩,
          .ok st.nextTranId ((lines.map (fun l => (l.qty : Rat) * l.unit_price)).sum)) := by
      unfold checkout
      rw [hne, hq, hs, hd]
      rfl
    rw [he]
    rfl

/-- C4 witness: buying 3 Apples at catalog price 18 commits a line priced by
the validation-time snapshot, and a subsequent admin price change does not
touch the committed ledger. -/
theorem price_snapshot_witness :
    (appleCart.isEmpty = false ∧
     appleCart.any (fun l => l.qty ≤ 0) = false ∧
     snapshotCart appleState.catalog appleCart = some [⟨3, 3, 18⟩] ∧
     applyDecrements appleState.catalog appleCart
       = some [⟨3, "Apples", 18, some "2004428073279", 2, 0, 0⟩]) ∧
    ∃ t : Transaction,
      checkout appleState appleCart
        = (⟨[⟨3, "Apples", 18, some "2004428073279", 2, 0, 0⟩],
            appleState.ledger ++ [t], appleState.nextTranId + 1⟩,
           .ok appleState.nextTranId t.total) ∧
      t.lines = [⟨3, 3, 18⟩] ∧
      (∀ l ∈ t.lines, ∃ p, findProduct appleState.catalog l.product_id = some p ∧
         l.unit_price = p.price) ∧
      (∀ pid newPrice,
        (updatePrice (checkout appleState appleCart).1 pid newPrice).ledger
          = appleState.ledger ++ [t]) :=
  ⟨⟨by decide, by decide, by decide, by decide⟩,
   price_snapshot appleState appleCart [⟨3, 3, 18⟩]
     [⟨3, "Apples", 18, some "2004428073279", 2, 0, 0⟩]
     (by decide) (by decide) (by decide) (by decide)⟩

/-! ## C7 — weighted-average cost and suggested price -/

theorem updateFirst_findProduct {cat : List Product} {pid : Nat} {p : Product}
    (f : Product → Product) (hp : findProduct cat pid = some p)
    (hid : ∀ r, (f r).id = r.id) :
    ∃ cat', updateFirst cat pid f = some cat' ∧ findProduct cat' pid = some (f p) := by
  induction cat with
  | nil => simp [findProduct] at hp
  | cons r rs ih =>
    by_cases hr : r.id = pid
    · have hfind : findProduct (r :: rs) pid = some r := by
        simp [findProduct, List.find?_cons_of_pos, hr]
      rw [hfind] at hp
      obtain rfl := Option.some.inj hp
      refine ⟨f r :: rs, ?_, ?_⟩
      · rw [updateFirst, if_pos hr]
      · simp [findProduct, List.find?_cons_of_pos, hid, hr]
    · have hfind : findProduct (r :: rs) pid = findProduct rs pid := by
        simp [findProduct, List.find?_cons_of_neg, hr]
      rw [hfind] at hp
      obtain ⟨rs', hrs', hfind'⟩ := ih hp
      refine ⟨r :: rs', ?_, ?_⟩
      · rw [updateFirst, if_neg hr, hrs']
        rfl
      · simp [findProduct, List.find?_cons_of_neg, hr] at hfind' ⊢
        exact hfind'

/-- C7: `record_purchase` with a positive quantity updates the first product
with the given id by the running weighted average
`new_wac = (old_wac * old_basis + purchase_price * qty) / (old_basis + qty)`,
the suggested price of the updated product is `wac * (1 + markup/100)`, and
concretely purchases `(qty=10, price=5)` then `(qty=10, price=7)` on a fresh
product give WAC 6 and suggested price 7.2 (= 36/5) at 20% markup. -/
theorem wac_running_average (cat : List Product) (pid : Nat) (q : Int)
    (price markup : Rat) (p : Product)
    (hq : 0 < q) (hp : findProduct cat pid = some p) :
    (∃ cat', recordPurchase cat pid q price = some cat' ∧
        findProduct cat' pid = some (purchaseUpdate p q price)) ∧
    (purchaseUpdate p q price).wac
        = (p.wac * (p.wac_basis : Rat) + price * (q : Rat))
            / ((p.wac_basis : Rat) + (q : Rat)) ∧
    suggestedPrice (purchaseUpdate p q price) markup
        = (purchaseUpdate p q price).wac * (1 + markup / 100) ∧
    (wacFinal.wac = 6 ∧ suggestedPrice wacFinal 20 = 36 / 5) := by
  refine ⟨?_, rfl, rfl, ?_, ?_⟩
  · rw [recordPurchase, if_neg (by omega)]
    exact updateFirst_findProduct _ hp (fun r => rfl)
  · norm_num [wacFinal, purchaseUpdate, freshEggs]
  · norm_num [suggestedPrice, wacFinal, purchaseUpdate, freshEggs]

/-- C7 witness: the first purchase on the fresh Eggs product goes through
`record_purchase`, and the §8 scenario values WAC 6 and suggested 7.2 hold. -/
theorem wac_running_average_witness :
    ((0 : Int) < 10 ∧ findProduct wacDemoCatalog 7 = some freshEggs) ∧
    (∃ cat', recordPurchase wacDemoCatalog 7 10 5 = some cat' ∧
        findProduct cat' 7 = some (purchaseUpdate freshEggs 10 5)) ∧
    (wacFinal.wac = 6 ∧ suggestedPrice wacFinal 20 = 36 / 5) :=
  ⟨⟨by decide, by decide⟩,
   (wac_running_average wacDemoCatalog 7 10 5 20 freshEggs (by decide) (by decide)).1,
   (wac_running_average wacDemoCatalog 7 10 5 20 freshEggs (by decide) (by decide)).2.2.2⟩

/-! ## C5 — resolution order of scanned/typed codes -/

/-- C5 counterexample: the legacy `addToCart` resolution does not follow the
claimed order (barcode first): on a catalog where the input `"Milk"` is both
the exact name of one product and the barcode of another, the code resolves
the name first while the claimed order would resolve the barcode first. -/
theorem lookup_order_counterexample :
    resolveLegacy demoProducts "Milk" ≠ specOrderLegacy demoProducts "Milk" ∧
    resolveLegacy demoProducts "Milk" = some ("Milk", ⟨1, 18, some "B1"⟩) ∧
    specOrderLegacy demoProducts "Milk" = some ("Candy", ⟨2, 5, some "Milk"⟩) := by
  refine ⟨by decide, by decide, by decide⟩

/-- C5 (amended): the camera-scanner resolution of `startScanner` follows
the claimed order — exact barcode match, then exact id match, then
case-insensitive exact name match, first match wins — whereas the legacy
`addToCart` resolution tries the exact case-sensitive name first: whenever
the input is a key of `PRODUCTS`, that name match wins outright. -/
theorem lookup_order (ps : List SProduct) (code : String)
    (lps : LegacyCatalog) (input : String) :
    resolveScanner ps code = specOrderScanner ps code ∧
    (∀ info, lookupJsKey lps input = some info →
      resolveLegacy lps input = some (input, info)) := by
  constructor
  · rcases h1 : ps.find? (fun x => x.barcode == code) with _ | p
    · rcases h2 : ps.find? (fun x => toString x.id == code) with _ | q
      · simp [resolveScanner, specOrderScanner, h1, h2]
      · simp [resolveScanner, specOrderScanner, h1, h2]
    · simp [resolveScanner, specOrderScanner, h1]
  · intro info h
    rw [resolveLegacy, h]

/-- C5 witness: on concrete catalogs, the scanner resolution agrees with the
spec order, and a name-key hit decides the legacy resolution. -/
theorem lookup_order_witness :
    lookupJsKey demoProducts "Milk" = some ⟨1, 18, some "B1"⟩ ∧
    resolveScanner demoScanProducts "B2" = specOrderScanner demoScanProducts "B2" ∧
    resolveLegacy demoProducts "Milk" = some ("Milk", ⟨1, 18, some "B1"⟩) :=
  ⟨by decide,
   (lookup_order demoScanProducts "B2" demoProducts "Milk").1,
   (lookup_order demoScanProducts "B2" demoProducts "Milk").2 ⟨1, 18, some "B1"⟩ (by decide)⟩

/-! ## C9 — at most one cart entry per product -/

theorem bumpFirst_names (c : List CartItem) (n : String) (q : Int) :
    cartNames (bumpFirst c n q) = cartNames c := by
  induction c with
  | nil => rfl
  | cons x xs ih =>
    rw [bumpFirst]
    by_cases hx : x.name = n
    · rw [if_pos hx]
      simp [cartNames]
    · rw [if_neg hx]
      simp only [cartNames, List.map_cons] at ih ⊢
      rw [ih]

theorem bumpFirst_length (c : List CartItem) (n : String) (q : Int) :
    (bumpFirst c n q).length = c.length := by
  have h := bumpFirst_names c n q
  simpa [cartNames] using congrArg List.length h

theorem mem_bumpFirst_of_ne {c : List CartItem} {n : String} {q : Int}
    {item : CartItem} (hm : item ∈ c) (hne : item.name ≠ n) :
    item ∈ bumpFirst c n q := by
  induction c with
  | nil => exact absurd hm (List.not_mem_nil item)
  | cons x xs ih =>
    rw [bumpFirst]
    by_cases hx : x.name = n
    · rw [if_pos hx]
      rcases List.mem_cons.mp hm with h1 | h1
      · subst h1
        exact absurd hx hne
      · exact List.mem_cons_of_mem _ h1
    · rw [if_neg hx]
      rcases List.mem_cons.mp hm with h1 | h1
      · subst h1
        exact List.mem_cons_self _ _
      · exact List.mem_cons_of_mem _ (ih h1)

theorem bumpFirst_mem_bumped {c : List CartItem} {n : String} {q : Int}
    {item : CartItem} (hnd : (cartNames c).Nodup) (hm : item ∈ c)
    (hn : item.name = n) :
    { item with qty := item.qty + q } ∈ bumpFirst c n q := by
  induction c with
  | nil => exact absurd hm (List.not_mem_nil item)
  | cons x xs ih =>
    have hnd' : x.name ∉ cartNames xs ∧ (cartNames xs).Nodup := by
      rw [cartNames, List.map_cons, List.nodup_cons] at hnd
      exact ⟨hnd.1, hnd.2⟩
    rw [bumpFirst]
    rcases List.mem_cons.mp hm with h1 | h1
    · subst h1
      rw [if_pos hn]
      exact List.mem_cons_self _ _
    · by_cases hx : x.name = n
      · exfalso
        have hxn : x.name ∈ cartNames xs := by
          rw [hx, ← hn]
          exact List.mem_map_of_mem (fun i => i.name) h1
        exact hnd'.1 hxn
      · rw [if_neg hx]
        exact List.mem_cons_of_mem _ (ih hnd'.2 h1)

theorem addToCart_unresolved (ps : LegacyCatalog) (cart : List CartItem)
    {input : String} (qty : Int) (hi : input ≠ "")
    (hr : resolveLegacy ps input = none) :
    addToCart ps cart input qty = cart := by
  rw [addToCart, if_neg hi, hr]

theorem addToCart_resolved (ps : LegacyCatalog) (cart : List CartItem)
    {input : String} (qty : Int) {pname : String} {info : PInfo}
    (hi : input ≠ "") (hr : resolveLegacy ps input = some (pname, info)) :
    addToCart ps cart input qty
      = if cart.any (fun x => x.name = pname) then bumpFirst cart pname qty
        else cart ++ [⟨pname, qty, info.price⟩] := by
  rw [addToCart, if_neg hi, hr]

theorem addToCart_names_nodup (ps : LegacyCatalog) {cart : List CartItem}
    (h : (cartNames cart).Nodup) (input : String) (qty : Int) :
    (cartNames (addToCart ps cart input qty)).Nodup := by
  by_cases hi : input = ""
  · rw [addToCart, if_pos hi]
    exact h
  rcases hr : resolveLegacy ps input with _ | e
  · rw [addToCart_unresolved ps cart qty hi hr]
    exact h
  obtain ⟨pname, info⟩ := e
  rw [addToCart_resolved ps cart qty hi hr]
  by_cases hin : cart.any (fun x => x.name = pname)
  · rw [if_pos hin, bumpFirst_names]
    exact h
  · rw [if_neg hin]
    have hnot : pname ∉ cartNames cart := by
      intro hmem
      obtain ⟨x, hx, hxn⟩ := List.mem_map.mp hmem
      exact hin (List.any_eq_true.mpr ⟨x, hx, by simp [hxn]⟩)
    rw [cartNames, List.map_append, List.map_cons, List.map_nil]
    refine List.Nodup.append h (List.nodup_singleton pname) ?_
    intro a ha hb
    rcases List.mem_singleton.mp hb with rfl
    exact hnot ha

theorem foldl_addToCart_nodup (ps : LegacyCatalog) (calls : List (String × Int))
    {cart : List CartItem} (h : (cartNames cart).Nodup) :
    (cartNames (calls.foldl (fun c a => addToCart ps c a.1 a.2) cart)).Nodup := by
  induction calls generalizing cart with
  | nil => exact h
  | cons a as ih => exact ih (addToCart_names_nodup ps h a.1 a.2)

/-- C9: after any sequence of `addToCart` calls starting from the empty cart
the cart names are pairwise distinct — at most one entry per product; and one
`addToCart` call that resolves to a product already in the cart keeps the
cart length, leaves every other entry in place and increments exactly that
entry's quantity by the given amount, while a call resolving to a product
not yet in the cart appends exactly one `{name, qty, price}` entry. -/
theorem cart_unique_entries (ps : LegacyCatalog) :
    (∀ calls : List (String × Int),
      (cartNames (calls.foldl (fun c a => addToCart ps c a.1 a.2) [])).Nodup) ∧
    (∀ (cart : List CartItem) (input : String) (qty : Int)
       (pname : String) (info : PInfo),
      resolveLegacy ps input = some (pname, info) → input ≠ "" →
      ((cart.any (fun x => x.name = pname) = true →
          (addToCart ps cart input qty).length = cart.length ∧
          (∀ item ∈ cart, item.name ≠ pname → item ∈ addToCart ps cart input qty) ∧
          ((cartNames cart).Nodup → ∀ item ∈ cart, item.name = pname →
            { item with qty := item.qty + qty } ∈ addToCart ps cart input qty)) ∧
       (cart.any (fun x => x.name = pname) = false →
          addToCart ps cart input qty = cart ++ [⟨pname, qty, info.price⟩]))) := by
  constructor
  · intro calls
    exact foldl_addToCart_nodup ps calls (by simp [cartNames])
  · intro cart input qty pname info hr hi
    have he := addToCart_resolved ps cart qty hi hr
    constructor
    · intro hin
      rw [he, if_pos hin]
      exact ⟨bumpFirst_length cart pname qty,
        fun item hm hne => mem_bumpFirst_of_ne hm hne,
        fun hnd item hm hn => bumpFirst_mem_bumped hnd hm hn⟩
    · intro hin
      rw [he, if_neg (by simp [hin])]

/-- C9 witness: adding Milk to a cart that does not contain it appends one
entry with the catalog price. -/
theorem cart_unique_entries_witness :
    (resolveLegacy demoProducts "Milk" = some ("Milk", ⟨1, 18, some "B1"⟩) ∧
     ("Milk" : String) ≠ "" ∧
     demoCart.any (fun x => x.name = "Milk") = false) ∧
    addToCart demoProducts demoCart "Milk" 2 = demoCart ++ [⟨"Milk", 2, 18⟩] :=
  ⟨⟨by decide, by decide, by decide⟩,
   ((cart_unique_entries demoProducts).2 demoCart "Milk" 2 "Milk" ⟨1, 18, some "B1"⟩
      (by decide) (by decide)).2 (by decide)⟩

/-! ## C10 — unresolved input leaves the cart unchanged -/

/-- C10: when the typed or scanned value resolves to no product — no name,
id or barcode match — `addToCart` returns the cart exactly as it was: no
entry added, none modified. -/
theorem unresolved_input_cart_unchanged (ps : LegacyCatalog) (cart : List CartItem)
    (input : String) (qty : Int) (h : resolveLegacy ps input = none) :
    addToCart ps cart input qty = cart := by
  rw [addToCart]
  by_cases hi : input = ""
  · rw [if_pos hi]
  · rw [if_neg hi, h]

/-- C10 witness: `"Bread"` matches no name, id or barcode of the demo
catalog, and adding it changes nothing. -/
theorem unresolved_input_cart_unchanged_witness :
    resolveLegacy demoProducts "Bread" = none ∧
    addToCart demoProducts demoCart "Bread" 1 = demoCart :=
  ⟨by decide, unresolved_input_cart_unchanged demoProducts demoCart "Bread" 1 (by decide)⟩

end FarmStall
